import Mathlib

/-!
Verification development for the triage-party core: the tag registry
(pkg/tag/tag.go) and the collection orchestrator (pkg/triage/collection.go).
Pure Go functions become Lean functions; the mutable loop state of
ExecuteCollection becomes explicit state passing; Go maps used as string
sets become lists with membership tests; fallible Go functions returning
(value, error) pairs become Except values (the Go code returns a nil
result exactly on its error paths, which the error branch of Except
captures).  Wall-clock timestamps and log output are outside the model.
float64 metric fields are modelled as exact rationals.
-/

/-- Tag is used for automatically labelling issues (pkg/tag/tag.go). -/
structure Tag where
  ID : String
  Desc : String
  NeedsComments : Bool := false
  NeedsReviews : Bool := false
  NeedsTimeline : Bool := false
deriving DecidableEq, Repr

namespace tag

-- Simple tags
def Assigned : Tag := { ID := "assigned", Desc := "Someone is assigned" }

def Closed : Tag := { ID := "closed", Desc := "This item has been closed" }

def OpenMilestone : Tag := { ID := "open-milestone", Desc := "The issue is associated to an open milestone" }

def Similar : Tag := { ID := "similar", Desc := "Title appears similar to another PR or issue" }

def Merged : Tag := { ID := "merged", Desc := "PR was merged" }

def Draft : Tag := { ID := "draft", Desc := "Draft PR" }

-- Comment-based tags
def Commented : Tag := { ID := "commented", Desc := "A project member has commented on this", NeedsComments := true }

def Send : Tag := { ID := "send", Desc := "A project member commented more recently than the author", NeedsComments := true }

def Recv : Tag := { ID := "recv", Desc := "The author commented more recently than a project member", NeedsComments := true }

def RecvQ : Tag := { ID := "recv-q", Desc := "The author has asked a question since the last project member commented", NeedsComments := true }

def AuthorLast : Tag := { ID := "author-last", Desc := "The last commenter was the original author", NeedsComments := true }

def AssigneeUpdated : Tag := { ID := "assignee-updated", Desc := "Issue has been updated by its assignee", NeedsComments := true }

-- Timeline-based tags
def XrefApproved : Tag := { ID := "pr-approved", Desc := "Last review was an approval", NeedsTimeline := true }

def XrefReviewedWithComment : Tag := { ID := "pr-reviewed-with-comment", Desc := "Last review was a comment", NeedsTimeline := true }

def XrefChangesRequested : Tag := { ID := "pr-changes-requested", Desc := "Last review was a request for changes", NeedsTimeline := true }

def XrefNewCommits : Tag := { ID := "pr-new-commits", Desc := "PR has commits since the last review", NeedsTimeline := true }

def XrefPushedAfterApproval : Tag := { ID := "pr-pushed-after-approval", Desc := "PR was pushed to after approval", NeedsTimeline := true }

def XrefUnreviewed : Tag := { ID := "pr-unreviewed", Desc := "PR has never been reviewed", NeedsTimeline := true }

-- Review-based tags
def Approved : Tag := { ID := "approved", Desc := "Last review was an approval", NeedsReviews := true }

def ReviewedWithComment : Tag := { ID := "reviewed-with-comment", Desc := "Last review was a comment", NeedsReviews := true }

def ChangesRequested : Tag := { ID := "changes-requested", Desc := "Last review was a request for changes", NeedsReviews := true }

def NewCommits : Tag := { ID := "new-commits", Desc := "PR has commits since the last review", NeedsReviews := true }

def PushedAfterApproval : Tag := { ID := "pushed-after-approval", Desc := "PR was pushed to after approval", NeedsReviews := true }

def Unreviewed : Tag := { ID := "unreviewed", Desc := "PR has never been reviewed", NeedsReviews := true }

-- Special
def None : Tag := { ID := "none", Desc := "No tag matched", NeedsComments := true, NeedsReviews := true, NeedsTimeline := true }

/-- The full var block of pkg/tag/tag.go: every statically declared tag of
the vocabulary, in declaration order (lines 29 to 64 of the source). -/
def staticTags : List Tag :=
  [Assigned, Closed, OpenMilestone, Similar, Merged, Draft,
   Commented, Send, Recv, RecvQ, AuthorLast, AssigneeUpdated,
   XrefApproved, XrefReviewedWithComment, XrefChangesRequested,
   XrefNewCommits, XrefPushedAfterApproval, XrefUnreviewed,
   Approved, ReviewedWithComment, ChangesRequested, NewCommits,
   PushedAfterApproval, Unreviewed, None]

/-- The Tags slice of pkg/tag/tag.go (lines 66 to 91), in source order. -/
def Tags : List Tag :=
  [Assigned, Closed, OpenMilestone, Similar, Merged, Draft,
   Commented, Send, Recv, RecvQ, AuthorLast, AssigneeUpdated,
   Approved, ReviewedWithComment, ChangesRequested, NewCommits,
   PushedAfterApproval, Unreviewed,
   XrefApproved, XrefReviewedWithComment, XrefChangesRequested,
   XrefNewCommits, XrefPushedAfterApproval, XrefUnreviewed]

/-- RoleLast from pkg/tag/tag.go: builds the role-based tag by string
interpolation. -/
def RoleLast (role : String) : Tag :=
  { ID := role ++ "-last", Desc := "The last commenter was a project " ++ role }

/-- The loop body of Dedup from pkg/tag/tag.go, with the seen map of the Go
code made an explicit list of identifiers: a tag whose ID was already seen
is skipped, otherwise it is appended and its ID is recorded. -/
def dedupGo (seen : List String) : List Tag → List Tag
  | [] => []
  | t :: ts =>
    if t.ID ∈ seen then dedupGo seen ts
    else t :: dedupGo (t.ID :: seen) ts

/-- Dedup from pkg/tag/tag.go: starts from an empty result and an empty
seen set. -/
def Dedup (tags : List Tag) : List Tag := dedupGo [] tags

end tag

namespace triage

/-- Modelled from the spec: a matched item produced by the external rule
evaluation engine (hubbub); only its identity is visible to this core. -/
structure Item where
  URL : String
deriving DecidableEq, Repr

/-- Modelled from the spec: the item-kind discriminator constant
(hubbub.PullRequest); classification compares the declared rule kind against
this constant, every other value counting as issue-kind. -/
def PullRequest : String := "pull_request"

/-- Modelled from the spec: a rule definition as this core consumes it — a
name, the declared item kind (Go field Type, renamed because Type is a Lean
keyword) and the referenced repositories. -/
structure Rule where
  Name : String
  Typ : String
  Repos : List String
deriving DecidableEq, Repr

/-- Modelled from the spec: the per-rule evaluation output consumed
read-only by aggregation — rule reference, matched items, and fractional-day
aggregate fields (float64 in Go, exact rationals here). -/
structure RuleResult where
  Rule : Rule
  Items : List Item
  TotalAgeDays : ℚ
  TotalCurrentHoldDays : ℚ
  TotalAccumulatedHoldDays : ℚ
deriving DecidableEq, Repr

/-- Collection from pkg/triage/collection.go: a fully loaded YAML
configuration. -/
structure Collection where
  ID : String
  Name : String
  Description : String := ""
  RuleIDs : List String
  Dedup : Bool := false
  Hidden : Bool := false
  UsedForStats : Bool := false
deriving DecidableEq, Repr

/-- CollectionResult from pkg/triage/collection.go.  The wall-clock Time
field is outside the model; durations are nanosecond counts (time.Duration
is an int64 of nanoseconds); the float64 day totals are exact rationals. -/
structure CollectionResult where
  RuleResults : List RuleResult
  Total : Nat
  TotalPullRequests : Nat
  TotalIssues : Nat
  AvgAge : Int
  AvgCurrentHold : Int
  AvgAccumulatedHold : Int
  TotalAgeDays : ℚ
  TotalCurrentHoldDays : ℚ
  TotalAccumulatedHoldDays : ℚ
deriving DecidableEq, Repr

/-- Errors visible in collection.go.  Lookup and evaluation errors come from
external collaborators; modelled from the spec, configuration errors carry
the offending identifier (taxonomy item a of the spec), evaluation errors
are opaque messages, and the wrapped constructor models
fmt.Errorf with the rule name, as on line 79 of collection.go. -/
inductive Err where
  | ruleNotFound (id : String)
  | collectionNotFound (id : String)
  | evalFailure (msg : String)
  | wrapped (ruleName : String) (e : Err)
  | parseFailure (ref : String)
deriving DecidableEq, Repr

/-- The seen map threaded through rule evaluation (map from item URL to the
rule that first matched it, map string to Rule pointer in Go). -/
abbrev SeenMap : Type := List (String × Rule)

/-- One engine flush request, recording the arguments of the
engine.FlushSearchCache call on line 149 of collection.go. -/
structure FlushCall where
  org : String
  project : String
  minAge : Int
deriving DecidableEq, Repr

/-- The Party receiver as collection.go uses it: its resolved collections
plus the external collaborators it calls (LookupRule, ExecuteRule and
parseRepo live outside this file s source, so they are parameters of the
model).  The engine flush result is ignored by the code apart from a log
line, so it does not appear. -/
structure Party where
  collections : List Collection
  lookupRule : String → Except Err Rule
  executeRule : Rule → SeenMap → Except Err (RuleResult × SeenMap)
  parseRepo : String → Except Err (String × String)

/-- The mutable state of the ExecuteCollection loop: the accumulated
results os, the cross-rule seen map, and the processed-identifier set
seenRule. -/
structure LoopState where
  os : List RuleResult
  seen : SeenMap
  seenRule : List String

/-- The loop of ExecuteCollection (lines 64 to 83 of collection.go): a rule
identifier already in seenRule is logged and skipped; otherwise it is
recorded, looked up (a lookup error aborts with that error unchanged),
evaluated against the shared seen map (an evaluation error aborts with the
error wrapped in the rule name), and the result is appended. -/
def execRules (p : Party) : List String → LoopState → Except Err LoopState
  | [], st => .ok st
  | tid :: rest, st =>
    if tid ∈ st.seenRule then
      execRules p rest st
    else
      match p.lookupRule tid with
      | .error e => .error e
      | .ok t =>
        match p.executeRule t st.seen with
        | .error e => .error (Err.wrapped t.Name e)
        | .ok (ro, seen2) =>
          execRules p rest
            { os := st.os ++ [ro], seen := seen2, seenRule := tid :: st.seenRule }

/-- avgDayDuration needs the truncation of Go int64 conversion: toward
zero, so floor for nonnegative values and ceiling for negative ones. -/
def int64trunc (q : ℚ) : Int := if 0 ≤ q then ⌊q⌋ else ⌈q⌉

/-- Nanoseconds in time.Hour. -/
def nsPerHour : Int := 3600000000000

/-- avgDayDuration from collection.go line 125: duration(int64(total /
count * 24)) * time.Hour, with float64 arithmetic carried out exactly. -/
def avgDayDuration (total : ℚ) (count : Nat) : Int :=
  int64trunc (total / (count : ℚ) * 24) * nsPerHour

/-- The loop body of SummarizeCollectionResult (lines 97 to 113): counts
the items into Total and into the kind bucket chosen by the declared rule
kind, appends the rule result, and sums the day totals. -/
def addRuleResult (r : CollectionResult) (oc : RuleResult) : CollectionResult :=
  { r with
    Total := r.Total + oc.Items.length
    TotalPullRequests :=
      if oc.Rule.Typ = PullRequest then r.TotalPullRequests + oc.Items.length
      else r.TotalPullRequests
    TotalIssues :=
      if oc.Rule.Typ = PullRequest then r.TotalIssues
      else r.TotalIssues + oc.Items.length
    RuleResults := r.RuleResults ++ [oc]
    TotalAgeDays := r.TotalAgeDays + oc.TotalAgeDays
    TotalCurrentHoldDays := r.TotalCurrentHoldDays + oc.TotalCurrentHoldDays
    TotalAccumulatedHoldDays :=
      r.TotalAccumulatedHoldDays + oc.TotalAccumulatedHoldDays }

/-- The zero-valued CollectionResult literal of line 95. -/
def emptyCollectionResult : CollectionResult :=
  { RuleResults := [], Total := 0, TotalPullRequests := 0, TotalIssues := 0,
    AvgAge := 0, AvgCurrentHold := 0, AvgAccumulatedHold := 0,
    TotalAgeDays := 0, TotalCurrentHoldDays := 0,
    TotalAccumulatedHoldDays := 0 }

/-- The tail of SummarizeCollectionResult after its loop (lines 114 to
122): when Total is zero return early, with the averages left at their
zero values; otherwise fill in the three averages. -/
def finishCollectionResult (r : CollectionResult) : CollectionResult :=
  if r.Total = 0 then r
  else
    { r with
      AvgAge := avgDayDuration r.TotalAgeDays r.Total
      AvgCurrentHold := avgDayDuration r.TotalCurrentHoldDays r.Total
      AvgAccumulatedHold := avgDayDuration r.TotalAccumulatedHoldDays r.Total }

/-- SummarizeCollectionResult from collection.go lines 92 to 123: fold the
rule results over the zero-valued result, then compute the averages unless
Total is zero. -/
def SummarizeCollectionResult (os : List RuleResult) : CollectionResult :=
  finishCollectionResult (os.foldl addRuleResult emptyCollectionResult)

/-- ExecuteCollection from collection.go lines 56 to 89: run the rule loop
from empty state and summarize; every error path of the Go function returns
a nil CollectionResult together with the error, which the error branch of
Except captures.  The Time stamp is wall clock and outside the model. -/
def executeCollection (p : Party) (s : Collection) : Except Err CollectionResult :=
  match execRules p s.RuleIDs ⟨[], [], []⟩ with
  | .error e => .error e
  | .ok st => .ok (SummarizeCollectionResult st.os)

/-- LookupCollection from collection.go lines 165 to 172: first collection
with the matching ID, otherwise a not-found error naming the identity. -/
def LookupCollection (p : Party) (id : String) : Except Err Collection :=
  match p.collections.find? (fun s => s.ID == id) with
  | some s => .ok s
  | none => .error (Err.collectionNotFound id)

/-- The inner repository loop of FlushSearchCache (lines 142 to 154): a
repository reference already flushed is skipped; otherwise its reference is
parsed (a parse error aborts), the engine flush is requested (its own error
is only logged, so the call is recorded and the loop continues) and the
reference is marked flushed. -/
def flushRepos (p : Party) (minAge : Int) :
    List String → List String → List FlushCall →
    Except Err (List String × List FlushCall)
  | [], fl, calls => .ok (fl, calls)
  | r :: rest, fl, calls =>
    if r ∈ fl then flushRepos p minAge rest fl calls
    else
      match p.parseRepo r with
      | .error e => .error e
      | .ok (org, project) =>
        flushRepos p minAge rest (r :: fl) (calls ++ [⟨org, project, minAge⟩])

/-- The outer rule loop of FlushSearchCache (lines 137 to 155): each rule
identifier is looked up (a lookup error aborts) and its repositories are
flushed against the shared flushed set. -/
def flushRules (p : Party) (minAge : Int) :
    List String → List String → List FlushCall →
    Except Err (List String × List FlushCall)
  | [], fl, calls => .ok (fl, calls)
  | tid :: rest, fl, calls =>
    match p.lookupRule tid with
    | .error e => .error e
    | .ok t =>
      match flushRepos p minAge t.Repos fl calls with
      | .error e => .error e
      | .ok (fl2, calls2) => flushRules p minAge rest fl2 calls2

/-- FlushSearchCache from collection.go lines 130 to 157, with the engine
flush requests it makes returned as an explicit trace. -/
def FlushSearchCache (p : Party) (id : String) (minAge : Int) :
    Except Err (List FlushCall) :=
  match LookupCollection p id with
  | .error e => .error e
  | .ok s =>
    match flushRules p minAge s.RuleIDs [] [] with
    | .error e => .error e
    | .ok (_, calls) => .ok calls

/-- First-occurrence deduplication of a string sequence relative to an
initial seen set, mirroring how the seenRule set of the ExecuteCollection
loop filters rule identifiers. -/
def dedupFrom (sr : List String) : List String → List String
  | [] => []
  | x :: xs =>
    if x ∈ sr then dedupFrom sr xs
    else x :: dedupFrom (x :: sr) xs

/-- First-occurrence deduplication carrying its final seen set, mirroring
the flushed set of FlushSearchCache: returns the final seen set and the
kept references in order. -/
def dedupSt (fl : List String) : List String → List String × List String
  | [] => (fl, [])
  | x :: xs =>
    if x ∈ fl then dedupSt fl xs
    else
      let q := dedupSt (x :: fl) xs
      (q.1, x :: q.2)

/-- A concrete rule used by concrete runs. -/
def mkRule (n : String) : Rule := { Name := n, Typ := "issue", Repos := [] }

/-- A concrete Party for concrete runs of ExecuteCollection: it defines the
rules a and b, and its rule evaluation matches one item named after the
rule and appends that rule to the shared seen map, so the seen map is a
trace of the evaluations performed. -/
def sampleParty : Party :=
  { collections := []
    lookupRule := fun tid =>
      if tid = "a" ∨ tid = "b" then .ok (mkRule tid)
      else .error (Err.ruleNotFound tid)
    executeRule := fun t s =>
      .ok ({ Rule := t, Items := [⟨t.Name⟩], TotalAgeDays := 0,
             TotalCurrentHoldDays := 0, TotalAccumulatedHoldDays := 0 },
           s ++ [(t.Name, t)])
    parseRepo := fun r => .ok (r, r) }

/-- A concrete collection listing rule a twice. -/
def colAAB : Collection :=
  { ID := "c", Name := "c", RuleIDs := ["a", "a", "b"] }

/-- A concrete Party whose rule lookup never succeeds. -/
def cexParty : Party :=
  { collections := []
    lookupRule := fun tid => .error (Err.ruleNotFound tid)
    executeRule := fun t s =>
      .ok ({ Rule := t, Items := [], TotalAgeDays := 0,
             TotalCurrentHoldDays := 0, TotalAccumulatedHoldDays := 0 }, s)
    parseRepo := fun r => .ok (r, r) }

/-- A collection named alpha referencing a missing rule. -/
def colAlpha : Collection :=
  { ID := "alpha", Name := "alpha", RuleIDs := ["missing"] }

/-- A collection named beta referencing the same missing rule. -/
def colBeta : Collection :=
  { ID := "beta", Name := "beta", RuleIDs := ["missing"] }

/-- A concrete Party whose rule a exists but whose evaluation fails. -/
def evalFailParty : Party :=
  { collections := []
    lookupRule := fun tid =>
      if tid = "a" then .ok (mkRule "a") else .error (Err.ruleNotFound tid)
    executeRule := fun _ _ => .error (Err.evalFailure "boom")
    parseRepo := fun r => .ok (r, r) }

/-- A collection referencing only rule a. -/
def colA : Collection := { ID := "one", Name := "one", RuleIDs := ["a"] }

/-- Rules of the flush example: rules a and b share the repository o/r1. -/
def flushRulesFn : String → Rule
  | "a" => { Name := "a", Typ := "issue", Repos := ["o/r1", "o/r2"] }
  | n => { Name := n, Typ := "issue", Repos := ["o/r1"] }

/-- Parse function of the flush example. -/
def flushParseFn (r : String) : String × String := (r, r)

/-- The collection of the flush example. -/
def colFlush : Collection := { ID := "fc", Name := "fc", RuleIDs := ["a", "b"] }

/-- A concrete Party for the flush example. -/
def flushParty : Party :=
  { collections := [colFlush]
    lookupRule := fun tid => .ok (flushRulesFn tid)
    executeRule := fun t s =>
      .ok ({ Rule := t, Items := [], TotalAgeDays := 0,
             TotalCurrentHoldDays := 0, TotalAccumulatedHoldDays := 0 }, s)
    parseRepo := fun r => .ok (flushParseFn r) }

/-- A rule result with two matched items and an age total of 10 days. -/
def sampleRuleResultA : RuleResult :=
  { Rule := mkRule "r1", Items := [⟨"i1"⟩, ⟨"i2"⟩], TotalAgeDays := 10,
    TotalCurrentHoldDays := 0, TotalAccumulatedHoldDays := 0 }

/-- A rule result with one matched item and an age total of 5 days. -/
def sampleRuleResultB : RuleResult :=
  { Rule := mkRule "r2", Items := [⟨"i3"⟩], TotalAgeDays := 5,
    TotalCurrentHoldDays := 0, TotalAccumulatedHoldDays := 0 }

/-- A rule result with no matched items. -/
def emptyRuleResult : RuleResult :=
  { Rule := mkRule "r0", Items := [], TotalAgeDays := 0,
    TotalCurrentHoldDays := 0, TotalAccumulatedHoldDays := 0 }

end triage

namespace tag

theorem dedupGo_sublist : ∀ (seen : List String) (ts : List Tag),
    (dedupGo seen ts).Sublist ts := by
  intro seen ts
  induction ts generalizing seen with
  | nil => simp [dedupGo]
  | cons h rest ih =>
    by_cases hm : h.ID ∈ seen
    · rw [dedupGo, if_pos hm]
      exact (ih seen).cons h
    · rw [dedupGo, if_neg hm]
      exact (ih (h.ID :: seen)).cons₂ h

theorem dedupGo_mem : ∀ (seen : List String) (ts : List Tag) (t : Tag),
    t ∈ dedupGo seen ts →
    t.ID ∉ seen ∧ ts.find? (fun u => u.ID == t.ID) = some t := by
  intro seen ts
  induction ts generalizing seen with
  | nil => intro t ht; simp [dedupGo] at ht
  | cons h rest ih =>
    intro t ht
    by_cases hm : h.ID ∈ seen
    · rw [dedupGo, if_pos hm] at ht
      obtain ⟨hns, hf⟩ := ih seen t ht
      have hne : (h.ID == t.ID) = false := by
        simp only [beq_eq_false_iff_ne, ne_eq]
        intro hEq
        exact hns (hEq ▸ hm)
      exact ⟨hns, by simp [List.find?, hne, hf]⟩
    · rw [dedupGo, if_neg hm] at ht
      rcases List.mem_cons.mp ht with rfl | ht2
      · exact ⟨hm, by simp [List.find?]⟩
      · obtain ⟨hns, hf⟩ := ih (h.ID :: seen) t ht2
        have hne : (h.ID == t.ID) = false := by
          simp only [beq_eq_false_iff_ne, ne_eq]
          intro hEq
          exact hns (hEq ▸ List.mem_cons_self h.ID seen)
        refine ⟨fun hs => hns (List.mem_cons_of_mem _ hs), ?_⟩
        simp [List.find?, hne, hf]

theorem dedupGo_covers : ∀ (seen : List String) (ts : List Tag) (t : Tag),
    t ∈ ts → t.ID ∉ seen → ∃ u ∈ dedupGo seen ts, u.ID = t.ID := by
  intro seen ts
  induction ts generalizing seen with
  | nil => intro t ht; simp at ht
  | cons h rest ih =>
    intro t ht hns
    rcases List.mem_cons.mp ht with rfl | ht2
    · rw [dedupGo, if_neg hns]
      exact ⟨t, List.mem_cons_self t _, rfl⟩
    · by_cases hm : h.ID ∈ seen
      · rw [dedupGo, if_pos hm]
        exact ih seen t ht2 hns
      · rw [dedupGo, if_neg hm]
        by_cases hid : t.ID = h.ID
        · exact ⟨h, List.mem_cons_self h _, hid.symm⟩
        · obtain ⟨u, hu, hu2⟩ := ih (h.ID :: seen) t ht2 (by
            intro hc
            rcases List.mem_cons.mp hc with hc1 | hc2
            · exact hid hc1
            · exact hns hc2)
          exact ⟨u, List.mem_cons_of_mem _ hu, hu2⟩

theorem dedupGo_nodup : ∀ (seen : List String) (ts : List Tag),
    ((dedupGo seen ts).map Tag.ID).Nodup := by
  intro seen ts
  induction ts generalizing seen with
  | nil => simp [dedupGo]
  | cons h rest ih =>
    by_cases hm : h.ID ∈ seen
    · rw [dedupGo, if_pos hm]
      exact ih seen
    · rw [dedupGo, if_neg hm]
      refine List.nodup_cons.mpr ⟨?_, ih (h.ID :: seen)⟩
      intro hmem
      obtain ⟨u, hu, hu2⟩ := List.mem_map.mp hmem
      obtain ⟨hns, _⟩ := dedupGo_mem (h.ID :: seen) rest u hu
      exact hns (hu2 ▸ List.mem_cons_self h.ID seen)

theorem dedupGo_eq_self : ∀ (seen : List String) (ts : List Tag),
    (ts.map Tag.ID).Nodup → (∀ t ∈ ts, t.ID ∉ seen) →
    dedupGo seen ts = ts := by
  intro seen ts
  induction ts generalizing seen with
  | nil => intro _ _; rfl
  | cons h rest ih =>
    intro hnd hfresh
    have hm : h.ID ∉ seen := hfresh h (List.mem_cons_self h rest)
    rw [dedupGo, if_neg hm]
    rw [List.map_cons, List.nodup_cons] at hnd
    congr 1
    refine ih (h.ID :: seen) hnd.2 ?_
    intro t ht hc
    rcases List.mem_cons.mp hc with hc1 | hc2
    · exact hnd.1 (hc1 ▸ List.mem_map_of_mem Tag.ID ht)
    · exact hfresh t (List.mem_cons_of_mem _ ht) hc2

end tag

/-- C2: the claim that the Tags slice contains every statically declared
tag fails: the special tag None is declared in the static var block of
pkg/tag/tag.go but does not appear in the Tags slice. -/
theorem tags_missing_none : tag.None ∈ tag.staticTags ∧ tag.None ∉ tag.Tags := by
  decide

/-- C2 (amended): the Tags slice contains every statically declared tag
except the special tag None, and identities are pairwise distinct, both
within Tags and across the whole static declaration block. -/
theorem tags_registry_amended :
    (∀ t ∈ tag.staticTags, t ≠ tag.None → t ∈ tag.Tags)
    ∧ (tag.Tags.map Tag.ID).Nodup
    ∧ (tag.staticTags.map Tag.ID).Nodup := by
  decide

/-- C2 witness: the amended registry theorem applied at the Assigned tag. -/
theorem tags_registry_amended_witness : tag.Assigned ∈ tag.Tags :=
  tags_registry_amended.1 tag.Assigned (by decide) (by decide)

/-- C3: Dedup returns the subsequence of its input that keeps exactly the
first occurrence of each distinct identity: the output is a sublist of the
input (hence order-preserving and no longer than the input), its
identities are pairwise distinct, every input identity is represented, each
output element is the first input element bearing its identity, and the
example input Approved, Closed, Approved yields Approved, Closed. -/
theorem dedup_first_occurrence_spec :
    (∀ tags : List Tag,
      (tag.Dedup tags).Sublist tags
      ∧ ((tag.Dedup tags).map Tag.ID).Nodup
      ∧ (∀ t ∈ tags, ∃ u ∈ tag.Dedup tags, u.ID = t.ID)
      ∧ (∀ t ∈ tag.Dedup tags, tags.find? (fun u => u.ID == t.ID) = some t)
      ∧ (tag.Dedup tags).length ≤ tags.length)
    ∧ tag.Dedup [tag.Approved, tag.Closed, tag.Approved]
        = [tag.Approved, tag.Closed] := by
  refine ⟨fun tags => ?_, by decide⟩
  have hsub := tag.dedupGo_sublist [] tags
  refine ⟨hsub, tag.dedupGo_nodup [] tags, ?_, ?_, hsub.length_le⟩
  · intro t ht
    exact tag.dedupGo_covers [] tags t ht (by simp)
  · intro t ht
    exact (tag.dedupGo_mem [] tags t ht).2

/-- C3 witness: the Dedup specification applied to the concrete input
Approved, Closed, Approved, instantiating the coverage conjunct at the
Approved tag. -/
theorem dedup_first_occurrence_spec_witness :
    ∃ u ∈ tag.Dedup [tag.Approved, tag.Closed, tag.Approved],
      u.ID = tag.Approved.ID :=
  (dedup_first_occurrence_spec.1
    [tag.Approved, tag.Closed, tag.Approved]).2.2.1 tag.Approved (by decide)

/-- C4: Dedup is idempotent. -/
theorem dedup_idempotent :
    ∀ tags : List Tag, tag.Dedup (tag.Dedup tags) = tag.Dedup tags := by
  intro tags
  refine tag.dedupGo_eq_self [] (tag.Dedup tags) (tag.dedupGo_nodup [] tags) ?_
  intro t _
  simp

namespace triage

theorem execRules_append (p : Party) : ∀ (xs ys : List String) (st : LoopState),
    execRules p (xs ++ ys) st
      = (execRules p xs st).bind fun st2 => execRules p ys st2 := by
  intro xs
  induction xs with
  | nil => intro ys st; rfl
  | cons x rest ih =>
    intro ys st
    simp only [List.cons_append, execRules]
    by_cases hm : x ∈ st.seenRule
    · simp only [if_pos hm]
      exact ih ys st
    · simp only [if_neg hm]
      split
      · rfl
      · split
        · rfl
        · exact ih ys _

theorem execRules_dedup (p : Party) : ∀ (ids : List String) (st : LoopState),
    execRules p ids st = execRules p (dedupFrom st.seenRule ids) st := by
  intro ids
  induction ids with
  | nil => intro st; rfl
  | cons tid rest ih =>
    intro st
    by_cases hm : tid ∈ st.seenRule
    · rw [dedupFrom, if_pos hm, execRules, if_pos hm]
      exact ih st
    · rw [dedupFrom, if_neg hm, execRules, if_neg hm, execRules, if_neg hm]
      split
      · rfl
      · split
        · rfl
        · exact ih _

theorem execRules_lookup_error (p : Party) : ∀ (ids : List String) (st : LoopState)
    (tid : String) (e : Err),
    tid ∈ ids → tid ∉ st.seenRule → p.lookupRule tid = .error e →
    ∃ e2, execRules p ids st = .error e2 := by
  intro ids
  induction ids with
  | nil => intro st tid e h; simp at h
  | cons x rest ih =>
    intro st tid e hmem hns hl
    by_cases hm : x ∈ st.seenRule
    · rw [execRules, if_pos hm]
      have hmem2 : tid ∈ rest := by
        rcases List.mem_cons.mp hmem with rfl | h2
        · exact absurd hm hns
        · exact h2
      exact ih st tid e hmem2 hns hl
    · rw [execRules, if_neg hm]
      split
      · rename_i e3 _
        exact ⟨e3, rfl⟩
      · rename_i t hl2
        split
        · rename_i e3 _
          exact ⟨Err.wrapped t.Name e3, rfl⟩
        · rename_i ro seen2 _
          have hne : tid ≠ x := by
            intro hEq
            rw [hEq, hl2] at hl
            simp at hl
          have hmem2 : tid ∈ rest := by
            rcases List.mem_cons.mp hmem with rfl | h2
            · exact absurd rfl hne
            · exact h2
          have hns2 : tid ∉ (x :: st.seenRule) := by
            intro hc
            rcases List.mem_cons.mp hc with hc1 | hc2
            · exact hne hc1
            · exact hns hc2
          exact ih ⟨st.os ++ [ro], seen2, x :: st.seenRule⟩ tid e hmem2 hns2 hl

end triage

/-- C1 (counterexample): the returned error does not identify which
collection failed: two collections that differ only in identity and
reference the same unresolvable rule make ExecuteCollection return the
very same error value, the lookup error passed through unchanged. -/
theorem collection_error_identity_counterexample :
    triage.colAlpha.ID ≠ triage.colBeta.ID
    ∧ triage.executeCollection triage.cexParty triage.colAlpha
        = .error (triage.Err.ruleNotFound "missing")
    ∧ triage.executeCollection triage.cexParty triage.colBeta
        = .error (triage.Err.ruleNotFound "missing") :=
  ⟨by decide, rfl, rfl⟩

/-- C1 (amended): if any rule identifier of the collection fails lookup,
ExecuteCollection aborts: it returns an error and no CollectionResult (the
error branch carries no partial statistics); when the failing identifier is
the first one processed, the error returned is exactly the lookup error,
unchanged, so it carries whatever LookupRule reports about the rule and
nothing about the collection. -/
theorem collection_abort_on_unknown_rule :
    (∀ (p : triage.Party) (c : triage.Collection) (tid : String) (e : triage.Err),
        tid ∈ c.RuleIDs → p.lookupRule tid = .error e →
        ∃ e2, triage.executeCollection p c = .error e2)
    ∧ (∀ (p : triage.Party) (c : triage.Collection) (tid : String)
        (rest : List String) (e : triage.Err),
        c.RuleIDs = tid :: rest → p.lookupRule tid = .error e →
        triage.executeCollection p c = .error e) := by
  constructor
  · intro p c tid e hmem hl
    obtain ⟨e2, h2⟩ :=
      triage.execRules_lookup_error p c.RuleIDs ⟨[], [], []⟩ tid e hmem (by simp) hl
    refine ⟨e2, ?_⟩
    unfold triage.executeCollection
    rw [h2]
  · intro p c tid rest e hids hl
    unfold triage.executeCollection
    rw [hids]
    rw [triage.execRules, if_neg (by simp), hl]

/-- C1 witness: the amended theorem applied to the concrete party whose
lookups fail, on the collection alpha. -/
theorem collection_abort_on_unknown_rule_witness :
    ∃ e2, triage.executeCollection triage.cexParty triage.colAlpha = .error e2 :=
  collection_abort_on_unknown_rule.1 triage.cexParty triage.colAlpha "missing"
    (triage.Err.ruleNotFound "missing") (by decide) rfl

/-- C5: ExecuteCollection evaluates each distinct rule identifier at most
once per run: executing a collection is identical to executing it with its
rule identifiers deduplicated to first occurrences (duplicates are skipped
and never fail the collection; the log line they trigger is outside the
model).  On the concrete run with rule identifiers a, a, b, the loop
produces two rule results and its evaluation trace (the seen map grown once
per evaluation) shows rule a evaluated exactly once, and the final
RuleResults of the collection result has length 2. -/
theorem collection_duplicate_rules_skipped :
    (∀ (p : triage.Party) (c : triage.Collection),
        triage.executeCollection p c
          = triage.executeCollection p
              { c with RuleIDs := triage.dedupFrom [] c.RuleIDs })
    ∧ (triage.execRules triage.sampleParty ["a", "a", "b"]
        ⟨[], [], []⟩).toOption.map
          (fun st => (st.os.length, st.seen.map Prod.fst)) = some (2, ["a", "b"])
    ∧ (triage.executeCollection triage.sampleParty triage.colAAB).toOption.map
        (fun r => r.RuleResults.length) = some 2 := by
  refine ⟨?_, rfl, rfl⟩
  intro p c
  unfold triage.executeCollection
  rw [triage.execRules_dedup p c.RuleIDs ⟨[], [], []⟩]

/-- C6: if the evaluation of a rule fails after a successful lookup,
ExecuteCollection aborts immediately: it returns the evaluation error
wrapped with the name of that rule, and no CollectionResult (the error
branch carries no partial result). -/
theorem collection_abort_on_eval_error :
    ∀ (p : triage.Party) (c : triage.Collection) (pre : List String)
      (tid : String) (rest : List String) (st : triage.LoopState)
      (t : triage.Rule) (e : triage.Err),
      c.RuleIDs = pre ++ tid :: rest →
      triage.execRules p pre ⟨[], [], []⟩ = .ok st →
      tid ∉ st.seenRule →
      p.lookupRule tid = .ok t →
      p.executeRule t st.seen = .error e →
      triage.executeCollection p c = .error (triage.Err.wrapped t.Name e) := by
  intro p c pre tid rest st t e hids hpre hns hl he
  unfold triage.executeCollection
  rw [hids, triage.execRules_append, hpre]
  simp only [Except.bind, triage.execRules, if_neg hns, hl, he]

/-- C6 witness: the abort theorem applied to the concrete party whose rule
a exists but fails evaluation, on the collection referencing only rule a. -/
theorem collection_abort_on_eval_error_witness :
    triage.executeCollection triage.evalFailParty triage.colA
      = .error (triage.Err.wrapped "a" (triage.Err.evalFailure "boom")) :=
  collection_abort_on_eval_error triage.evalFailParty triage.colA [] "a" []
    ⟨[], [], []⟩ (triage.mkRule "a") (triage.Err.evalFailure "boom")
    rfl rfl (by simp) rfl rfl

namespace triage

theorem foldl_addRuleResult_total (os : List RuleResult) :
    ∀ r0 : CollectionResult,
    (os.foldl addRuleResult r0).Total
      = r0.Total + (os.map fun oc => oc.Items.length).sum := by
  induction os with
  | nil => intro r0; simp
  | cons oc rest ih =>
    intro r0
    simp only [List.foldl_cons, List.map_cons, List.sum_cons]
    rw [ih (addRuleResult r0 oc)]
    simp [addRuleResult, Nat.add_assoc]

theorem foldl_addRuleResult_avg (os : List RuleResult) :
    ∀ r0 : CollectionResult,
    (os.foldl addRuleResult r0).AvgAge = r0.AvgAge
    ∧ (os.foldl addRuleResult r0).AvgCurrentHold = r0.AvgCurrentHold
    ∧ (os.foldl addRuleResult r0).AvgAccumulatedHold = r0.AvgAccumulatedHold := by
  induction os with
  | nil => intro r0; exact ⟨rfl, rfl, rfl⟩
  | cons oc rest ih =>
    intro r0
    simp only [List.foldl_cons]
    simpa [addRuleResult] using ih (addRuleResult r0 oc)

theorem foldl_addRuleResult_split (os : List RuleResult) :
    ∀ r0 : CollectionResult,
    r0.Total = r0.TotalPullRequests + r0.TotalIssues →
    (os.foldl addRuleResult r0).Total
      = (os.foldl addRuleResult r0).TotalPullRequests
        + (os.foldl addRuleResult r0).TotalIssues := by
  induction os with
  | nil => intro r0 h; exact h
  | cons oc rest ih =>
    intro r0 h
    simp only [List.foldl_cons]
    refine ih (addRuleResult r0 oc) ?_
    by_cases ht : oc.Rule.Typ = PullRequest
    · simp only [addRuleResult, if_pos ht]
      omega
    · simp only [addRuleResult, if_neg ht]
      omega

end triage

/-- C7: when the rule results carry no items at all,
SummarizeCollectionResult is total and silent: it returns a result with
Total equal to zero and all three averages still their zero value, the
zero-total early return never reaching the division of avgDayDuration. -/
theorem collection_zero_total_zero_averages :
    ∀ os : List triage.RuleResult,
      (os.map fun oc => oc.Items.length).sum = 0 →
      (triage.SummarizeCollectionResult os).Total = 0
      ∧ (triage.SummarizeCollectionResult os).AvgAge = 0
      ∧ (triage.SummarizeCollectionResult os).AvgCurrentHold = 0
      ∧ (triage.SummarizeCollectionResult os).AvgAccumulatedHold = 0 := by
  intro os h
  have htot :
      (os.foldl triage.addRuleResult triage.emptyCollectionResult).Total = 0 := by
    rw [triage.foldl_addRuleResult_total os triage.emptyCollectionResult, h]
    rfl
  obtain ⟨h1, h2, h3⟩ :=
    triage.foldl_addRuleResult_avg os triage.emptyCollectionResult
  unfold triage.SummarizeCollectionResult triage.finishCollectionResult
  rw [if_pos htot]
  exact ⟨htot, h1, h2, h3⟩

/-- C7 witness: the zero-total theorem applied to a single rule result
with no matched items. -/
theorem collection_zero_total_zero_averages_witness :
    (triage.SummarizeCollectionResult [triage.emptyRuleResult]).Total = 0
    ∧ (triage.SummarizeCollectionResult [triage.emptyRuleResult]).AvgAge = 0
    ∧ (triage.SummarizeCollectionResult [triage.emptyRuleResult]).AvgCurrentHold = 0
    ∧ (triage.SummarizeCollectionResult
        [triage.emptyRuleResult]).AvgAccumulatedHold = 0 :=
  collection_zero_total_zero_averages [triage.emptyRuleResult] (by simp [triage.emptyRuleResult])

/-- C10: every item is counted in exactly one of the two kind buckets, so
Total always equals TotalPullRequests plus TotalIssues. -/
theorem collection_total_split :
    ∀ os : List triage.RuleResult,
      (triage.SummarizeCollectionResult os).Total
        = (triage.SummarizeCollectionResult os).TotalPullRequests
          + (triage.SummarizeCollectionResult os).TotalIssues := by
  intro os
  have h := triage.foldl_addRuleResult_split os triage.emptyCollectionResult
    (by simp [triage.emptyCollectionResult])
  unfold triage.SummarizeCollectionResult triage.finishCollectionResult
  by_cases h0 :
      (os.foldl triage.addRuleResult triage.emptyCollectionResult).Total = 0
  · rw [if_pos h0]
    exact h
  · rw [if_neg h0]
    simpa using h

/-- C8 (counterexample): avgDayDuration truncates toward zero (the Go
int64 conversion), which differs from floor on a negative fractional-hour
value: at a day total of minus one over 48 items the fractional hours are
minus one half, the code yields a zero duration, while the floor formula
of the claim yields minus one hour. -/
theorem avg_duration_floor_counterexample :
    triage.avgDayDuration (-1) 48
      ≠ ⌊((-1 : ℚ)) / ((48 : Nat) : ℚ) * 24⌋ * triage.nsPerHour := by
  have hq : ((-1 : ℚ)) / ((48 : Nat) : ℚ) * 24 = -(1 / 2) := by norm_num
  have h1 : triage.avgDayDuration (-1) 48 = 0 := by
    rw [triage.avgDayDuration, triage.int64trunc, hq]
    norm_num [Int.ceil_neg]
  have h2 : (⌊((-1 : ℚ)) / ((48 : Nat) : ℚ) * 24⌋ : Int) = -1 := by
    rw [hq]
    norm_num
  rw [h1, h2]
  norm_num [triage.nsPerHour]

/-- C8 (amended): for nonnegative day totals (the only values the
aggregates take in practice) and positive counts, each average duration is
exactly floor of total divided by count times 24, in whole hours —
truncation and floor agree there; and the concrete aggregation of rule
results with day totals 10 and 5 over 3 items yields an AvgAge of exactly
120 hours. -/
theorem avg_duration_floor_amended :
    (∀ (total : ℚ) (count : Nat), 0 ≤ total → 0 < count →
        triage.avgDayDuration total count
          = ⌊total / (count : ℚ) * 24⌋ * triage.nsPerHour)
    ∧ (triage.SummarizeCollectionResult
        [triage.sampleRuleResultA, triage.sampleRuleResultB]).AvgAge
          = 120 * triage.nsPerHour := by
  constructor
  · intro total count htot _
    have hq : (0 : ℚ) ≤ total / (count : ℚ) * 24 :=
      mul_nonneg (div_nonneg htot (Nat.cast_nonneg count)) (by norm_num)
    rw [triage.avgDayDuration, triage.int64trunc, if_pos hq]
  · norm_num [triage.SummarizeCollectionResult, triage.finishCollectionResult,
      triage.addRuleResult, triage.emptyCollectionResult,
      triage.sampleRuleResultA, triage.sampleRuleResultB,
      triage.avgDayDuration, triage.int64trunc, triage.nsPerHour,
      triage.mkRule, triage.PullRequest, List.foldl]

/-- C8 witness: the amended floor identity applied at a day total of 15
over 3 items, the concrete numbers of the claim. -/
theorem avg_duration_floor_amended_witness :
    triage.avgDayDuration 15 3
      = ⌊(15 : ℚ) / ((3 : Nat) : ℚ) * 24⌋ * triage.nsPerHour :=
  avg_duration_floor_amended.1 15 3 (by norm_num) (by norm_num)

namespace triage

theorem dedupSt_append : ∀ (xs ys fl : List String),
    dedupSt fl (xs ++ ys)
      = ((dedupSt (dedupSt fl xs).1 ys).1,
         (dedupSt fl xs).2 ++ (dedupSt (dedupSt fl xs).1 ys).2) := by
  intro xs
  induction xs with
  | nil => intro ys fl; simp [dedupSt]
  | cons x rest ih =>
    intro ys fl
    by_cases hm : x ∈ fl
    · rw [List.cons_append, dedupSt, if_pos hm, dedupSt, if_pos hm]
      exact ih ys fl
    · rw [List.cons_append, dedupSt, if_neg hm, dedupSt, if_neg hm]
      simp only [ih ys (x :: fl), List.cons_append]

theorem flushRepos_ok (p : Party) (minAge : Int) (parse : String → String × String) :
    ∀ (repos fl : List String) (calls : List FlushCall),
    (∀ r ∈ repos, p.parseRepo r = .ok (parse r)) →
    flushRepos p minAge repos fl calls
      = .ok ((dedupSt fl repos).1,
             calls ++ (dedupSt fl repos).2.map
               (fun r => ⟨(parse r).1, (parse r).2, minAge⟩)) := by
  intro repos
  induction repos with
  | nil => intro fl calls _; simp [flushRepos, dedupSt]
  | cons r rest ih =>
    intro fl calls hp
    have hpr := hp r (List.mem_cons_self r rest)
    have hprest : ∀ x ∈ rest, p.parseRepo x = .ok (parse x) :=
      fun x hx => hp x (List.mem_cons_of_mem r hx)
    by_cases hm : r ∈ fl
    · rw [flushRepos, if_pos hm, dedupSt, if_pos hm]
      exact ih fl calls hprest
    · rw [flushRepos, if_neg hm, dedupSt, if_neg hm]
      rcases hd : parse r with ⟨org, proj⟩
      rw [hd] at hpr
      rw [hpr]
      dsimp only
      refine (ih (r :: fl) (calls ++ [⟨org, proj, minAge⟩]) hprest).trans ?_
      simp [hd]

theorem flushRules_ok (p : Party) (minAge : Int) (rules : String → Rule)
    (parse : String → String × String) :
    ∀ (ids fl : List String) (calls : List FlushCall),
    (∀ tid ∈ ids, p.lookupRule tid = .ok (rules tid)) →
    (∀ r, p.parseRepo r = .ok (parse r)) →
    flushRules p minAge ids fl calls
      = .ok ((dedupSt fl (ids.flatMap fun tid => (rules tid).Repos)).1,
             calls ++ (dedupSt fl (ids.flatMap fun tid => (rules tid).Repos)).2.map
               (fun r => ⟨(parse r).1, (parse r).2, minAge⟩)) := by
  intro ids
  induction ids with
  | nil => intro fl calls _ _; simp [flushRules, dedupSt]
  | cons tid rest ih =>
    intro fl calls hr hp
    have htid := hr tid (List.mem_cons_self tid rest)
    have hrest : ∀ x ∈ rest, p.lookupRule x = .ok (rules x) :=
      fun x hx => hr x (List.mem_cons_of_mem tid hx)
    rw [flushRules, htid]
    dsimp only
    rw [flushRepos_ok p minAge parse (rules tid).Repos fl calls
      (fun x _ => hp x)]
    dsimp only
    rw [ih _ _ hrest hp]
    simp [List.flatMap_cons, dedupSt_append, List.append_assoc]

end triage

/-- C9: FlushSearchCache requests exactly one engine flush per distinct
repository reference across all the rules of the collection, in
first-occurrence order: under successful lookups and parses, the trace of
engine flush calls is exactly the deduplicated list of repository
references of the rules, each parsed to its organization and project. -/
theorem flush_once_per_distinct_repo :
    ∀ (p : triage.Party) (cid : String) (minAge : Int) (s : triage.Collection)
      (rules : String → triage.Rule) (parse : String → String × String),
      triage.LookupCollection p cid = .ok s →
      (∀ tid ∈ s.RuleIDs, p.lookupRule tid = .ok (rules tid)) →
      (∀ r, p.parseRepo r = .ok (parse r)) →
      triage.FlushSearchCache p cid minAge
        = .ok ((triage.dedupSt []
              (s.RuleIDs.flatMap fun tid => (rules tid).Repos)).2.map
            (fun r => ⟨(parse r).1, (parse r).2, minAge⟩)) := by
  intro p cid minAge s rules parse hcol hrules hparse
  unfold triage.FlushSearchCache
  rw [hcol]
  dsimp only
  rw [triage.flushRules_ok p minAge rules parse s.RuleIDs [] [] hrules hparse]
  rfl

/-- C9 witness: the flush theorem applied to the concrete party whose two
rules reference the repository o/r1 twice and o/r2 once: exactly two flush
calls are requested, one per distinct repository. -/
theorem flush_once_per_distinct_repo_witness :
    triage.FlushSearchCache triage.flushParty "fc" 5
      = .ok [⟨"o/r1", "o/r1", 5⟩, ⟨"o/r2", "o/r2", 5⟩] := by
  have h := flush_once_per_distinct_repo triage.flushParty "fc" 5 triage.colFlush
    triage.flushRulesFn triage.flushParseFn rfl ?_ (fun _ => rfl)
  · exact h
  · intro tid hmem
    have htid : tid = "a" ∨ tid = "b" := by
      simpa [triage.colFlush] using hmem
    rcases htid with rfl | rfl <;> rfl
